import Mathlib

/-!
# Verification of the CART/BART tree engine

A shallow embedding of the mutable binary-tree engine of `tree.py`
(`BaseTree`, `CartTree`, `BartTrees`, `Node`) and proofs about its
topology mutations (`split`, `grow`, `prune`, `change`, `swap`), its
cache recomputation (`calcTerminalNodes`, `calcInternalNodes`), its
data-routing `filter`, its rule proposal `prule`, and the closed-form
`loglik` / `logprior` densities.

The mutable object graph of the Python code is embedded as a finite
map from node ids to node records, together with the process-wide id
allocator (`nextId`) and the derived terminal/internal caches, exactly
as stored on the Python objects.  Randomness is embedded by passing
the random draws (`np.random.randint` results) as explicit arguments.
Thresholds and data are rationals, so every structural operation is
computable and decidable.
-/

namespace CART

/-- One vertex of the decision tree: mirrors the Python `Node` object.
`rule` bundles `feature`/`threshold`, which `setThreshold` always sets
together; `none` encodes Python's `(None, None)`.  The root's `is_left`
attribute is never set in Python (and never read); we store an
arbitrary `Bool` for it. -/
structure NodeData where
  parent : Option Nat
  isLeft : Bool
  depth : Nat
  left : Option Nat
  right : Option Nat
  rule : Option (Nat × ℚ)
  deriving DecidableEq, Repr

/-- The object heap: node id to node record, `none` for unallocated or
garbage-collected ids. -/
def NodeMap : Type := Nat → Option NodeData

/-- Write one node record (Python attribute mutation / object creation). -/
def NodeMap.set (m : NodeMap) (i : Nat) (d : NodeData) : NodeMap :=
  fun j => if j = i then some d else m j

/-- Drop one node record (Python garbage collection after detaching). -/
def NodeMap.del (m : NodeMap) (i : Nat) : NodeMap :=
  fun j => if j = i then none else m j

/-- The full mutable state of a `BaseTree` (`CartTree` adds only
hyperparameters, which we pass as arguments to the density functions):
data, minimum leaf size, object heap, the `Node.NodeId` allocator, the
root id, and the two derived caches. -/
structure TreeState where
  X : List (List ℚ)
  y : List ℚ
  nFeatures : Nat
  nSamples : Nat
  nmin : Nat
  nodes : NodeMap
  nextId : Nat
  head : Nat
  terminalNodes : List Nat
  internalNodes : List Nat

/-- `BaseTree.__init__`: a fresh tree whose root is allocated at
`startId` (the current value of the process-wide `Node.NodeId`
counter), with caches `[head]` and `[]`. -/
def initTree (X : List (List ℚ)) (y : List ℚ) (nmin : Nat) (startId : Nat) :
    TreeState :=
  { X := X
    y := y
    nFeatures := (X.headD []).length
    nSamples := X.length
    nmin := nmin
    nodes := fun j => if j = startId then
        some ⟨none, true, 0, none, none, none⟩ else none
    nextId := startId + 1
    head := startId
    terminalNodes := [startId]
    internalNodes := [] }

/-- `X[r][f]` with the rectangular-array access of numpy. -/
def cellVal (X : List (List ℚ)) (r f : Nat) : ℚ :=
  (X.getD r []).getD f 0

/-- The chain of ancestor constraints above a node, as walked by
`BaseTree.filter`: for each ancestor edge, the ancestor's split feature
and threshold and whether the path descends through the left child.
Fuel bounds the walk (Python relies on the parent chain being
acyclic). -/
def ancestorChain (m : NodeMap) : Nat → Nat → List (Nat × ℚ × Bool)
  | 0, _ => []
  | fuel + 1, i =>
    match m i with
    | none => []
    | some nd =>
      match nd.parent with
      | none => []
      | some p =>
        match m p with
        | none => []
        | some pd =>
          match pd.rule with
          | none => []
          | some (f, t) => (f, t, nd.isLeft) :: ancestorChain m fuel p

/-- One ancestor constraint at one row: `X[:,f] <= t` on the left
branch, `X[:,f] > t` on the right branch. -/
def constraintOk (x t : ℚ) (isL : Bool) : Bool :=
  if isL then x ≤ t else t < x

/-- The ancestor chain of a node in a tree state, with fuel `nextId`
(an upper bound on the number of live nodes, hence on the depth). -/
def chainOf (s : TreeState) (i : Nat) : List (Nat × ℚ × Bool) :=
  ancestorChain s.nodes s.nextId i

/-- Row mask `includeY` of `BaseTree.filter`: a row reaches the node
iff it satisfies every ancestor constraint. -/
def rowOk (s : TreeState) (i r : Nat) : Bool :=
  (chainOf s i).all fun c => constraintOk (cellVal s.X r c.1) c.2.1 c.2.2

/-- Column mask `includeX[:,g]` of `BaseTree.filter`: a row passes
column `g` iff it satisfies the ancestor constraints whose split
feature is `g` (constraints on other features are ignored). -/
def colOk (s : TreeState) (i r g : Nat) : Bool :=
  ((chainOf s i).filter fun c => c.1 = g).all
    fun c => constraintOk (cellVal s.X r c.1) c.2.1 c.2.2

/-- `np.sum(fy)`: the number of rows routed to a node. -/
def nRouted (s : TreeState) (i : Nat) : Nat :=
  (List.range s.nSamples).countP fun r => rowOk s i r

/-- `np.sum(fx, axis=0)[g]`: the number of rows passing the column
mask of feature `g` at a node. -/
def colCount (s : TreeState) (i g : Nat) : Nat :=
  (List.range s.nSamples).countP fun r => colOk s i r g

/-- `self.X[:, feature][idxX[:, feature]]`: the observed values of
feature `g` among the rows passing its column mask at the node. -/
def colData (s : TreeState) (i g : Nat) : List ℚ :=
  ((List.range s.nSamples).filter fun r => colOk s i r g).map
    fun r => cellVal s.X r g

/-- The outcome values `self.y[fy]` of the rows routed to a node. -/
def routedY (s : TreeState) (i : Nat) : List ℚ :=
  ((List.range s.nSamples).filter fun r => rowOk s i r).map
    fun r => s.y.getD r 0

/-- The observed values of feature `g` among the rows routed to the
node (row mask, all ancestor constraints).  This is the notion the
spec uses for `proposeRule`; the code uses `colData` instead. -/
def routedVals (s : TreeState) (i g : Nat) : List ℚ :=
  ((List.range s.nSamples).filter fun r => rowOk s i r).map
    fun r => cellVal s.X r g

/-- `BaseTree.prule`: draw a feature uniformly (`fd` is the raw draw),
then draw the threshold uniformly from the observed values of that
feature among the rows passing its column mask (`ix` is the raw
draw); `(None, None)` when that value set is empty. -/
def prule (s : TreeState) (i fd ix : Nat) : Option (Nat × ℚ) :=
  let f := fd % s.nFeatures
  let data := colData s i f
  if data = [] then none
  else some (f, data.getD (ix % data.length) 0)

/-- `BaseTree.calcTerminalNodes_`: append the node when either child
slot is empty, then recurse into the right subtree, then the left. -/
def termList (m : NodeMap) : Nat → Nat → List Nat
  | 0, _ => []
  | fuel + 1, i =>
    match m i with
    | none => []
    | some nd =>
      (if nd.right = none ∨ nd.left = none then [i] else []) ++
      (match nd.right with
       | some r0 => termList m fuel r0
       | none => []) ++
      (match nd.left with
       | some l0 => termList m fuel l0
       | none => [])

/-- `BaseTree.calcInternalNodes_`: append the node when both child
slots are filled, then recurse into the right subtree, then the left. -/
def intList (m : NodeMap) : Nat → Nat → List Nat
  | 0, _ => []
  | fuel + 1, i =>
    match m i with
    | none => []
    | some nd =>
      (if nd.right ≠ none ∧ nd.left ≠ none then [i] else []) ++
      (match nd.right with
       | some r0 => intList m fuel r0
       | none => []) ++
      (match nd.left with
       | some l0 => intList m fuel l0
       | none => [])

/-- The attachment phase of `BaseTree.split`: construct the left and
right children (`Node.__init__` registers each with the parent and
advances the process-wide id counter) and set the parent's rule. -/
def splitAttach (s : TreeState) (p : Nat) (pd : NodeData) (f : Nat) (t : ℚ) :
    TreeState :=
  let lId := s.nextId
  let rId := s.nextId + 1
  let m1 := s.nodes.set lId ⟨some p, true, pd.depth + 1, none, none, none⟩
  let m2 := m1.set rId ⟨some p, false, pd.depth + 1, none, none, none⟩
  let m3 := m2.set p { pd with left := some lId, right := some rId,
                               rule := some (f, t) }
  { s with nodes := m3, nextId := s.nextId + 2 }

/-- `BaseTree.split`: attach both children and the rule, count the
rows routed to each child, and commit (recomputing both caches) only
when each child receives at least `nmin` rows; otherwise detach and
discard both children and clear the parent's rule. -/
def split (s : TreeState) (p : Nat) (f : Nat) (t : ℚ) :
    TreeState × Option (Nat × Nat) :=
  match s.nodes p with
  | none => (s, none)
  | some pd =>
    let lId := s.nextId
    let rId := s.nextId + 1
    let s1 := splitAttach s p pd f t
    if s.nmin ≤ nRouted s1 lId ∧ s.nmin ≤ nRouted s1 rId then
      ({ s1 with
          terminalNodes := termList s1.nodes s1.nextId s1.head
          internalNodes := intList s1.nodes s1.nextId s1.head },
       some (lId, rId))
    else
      let m := ((s1.nodes.set p
          { pd with left := none, right := none, rule := none }).del lId).del rId
      ({ s1 with nodes := m }, none)

/-- `BaseTree.grow`: pick a terminal node uniformly (`k` is the raw
draw), propose a rule, and attempt a split; a no-op when no rule is
found. -/
def grow (s : TreeState) (k fd ix : Nat) : TreeState :=
  if s.terminalNodes = [] then s
  else
    let rnode := s.terminalNodes.getD (k % s.terminalNodes.length) 0
    match prule s rnode fd ix with
    | none => s
    | some (f, t) => (split s rnode f t).1

/-- The candidate parents of `BaseTree.prune`: parents appearing
exactly twice among the parents of the cached terminal nodes. -/
def pruneCands (s : TreeState) : List Nat :=
  let parents : List (Option Nat) :=
    s.terminalNodes.map fun i => (s.nodes i).bind NodeData.parent
  (parents.filterMap id).dedup.filter fun p => parents.count (some p) = 2

/-- `BaseTree.prune`: pick a parent of two terminal children uniformly
(`k` is the raw draw), detach and discard both children (leaving the
parent's rule in place), and recompute both caches. -/
def prune (s : TreeState) (k : Nat) : TreeState :=
  if s.terminalNodes = [] then s
  else
    let cands := pruneCands s
    if cands = [] then s
    else
      let p := cands.getD (k % cands.length) 0
      match s.nodes p with
      | none => s
      | some pd =>
        let m1 := match pd.left with
                  | some l0 => s.nodes.del l0
                  | none => s.nodes
        let m2 := match pd.right with
                  | some r0 => m1.del r0
                  | none => m1
        let m3 := m2.set p { pd with left := none, right := none }
        { s with nodes := m3
                 terminalNodes := termList m3 s.nextId s.head
                 internalNodes := intList m3 s.nextId s.head }

/-- The routed-row count of an optional child node (a missing child —
impossible in the Python object graph when `change` reaches this point
— routes zero rows). -/
def childCount (s : TreeState) (c : Option Nat) : Nat :=
  match c with
  | some i => nRouted s i
  | none => 0

/-- `BaseTree.change`: pick an internal node uniformly (`k` is the raw
draw), propose a new rule, apply it tentatively, re-filter both
children, and restore the original rule exactly when either child
would fall below `nmin`. -/
def change (s : TreeState) (k fd ix : Nat) : TreeState :=
  if s.internalNodes = [] then s
  else
    let rnode := s.internalNodes.getD (k % s.internalNodes.length) 0
    match s.nodes rnode with
    | none => s
    | some nd =>
      match prule s rnode fd ix with
      | none => s
      | some (f, t) =>
        let s1 := { s with nodes := s.nodes.set rnode { nd with rule := some (f, t) } }
        if childCount s1 nd.left < s.nmin ∨ childCount s1 nd.right < s.nmin then
          { s with nodes := s.nodes.set rnode nd }
        else s1

/-- The candidate parents of `BaseTree.swap`: cached internal nodes
whose parent is also a cached internal node (deduplicated, as
`list(set(...))`). -/
def swapPnodes (s : TreeState) : List Nat :=
  ((s.internalNodes.filterMap fun n => (s.nodes n).bind NodeData.parent).filter
    fun p => p ∈ s.internalNodes).dedup

/-- The parent chosen by `swap` for raw draw `k`. -/
def swapPick (s : TreeState) (k : Nat) : Nat :=
  (swapPnodes s).getD (k % (swapPnodes s).length) 0

/-- The children of the chosen parent that are themselves cached
internal nodes (`cnodes` in `BaseTree.swap`). -/
def swapCands (s : TreeState) (l0 r0 : Nat) : List Nat :=
  (if l0 ∈ s.internalNodes then [l0] else []) ++
  (if r0 ∈ s.internalNodes then [r0] else [])

/-- `BaseTree.swap`: pick a candidate parent uniformly (`k` is the raw
draw).  When both children carry an identical rule, rotate three-way:
the shared child rule moves to the parent and the parent's former rule
moves to both children.  Otherwise exchange rules two-way between the
parent and one child that is itself a cached internal node (`k2` is
the raw draw among those). -/
def swap (s : TreeState) (k k2 : Nat) : TreeState :=
  if s.internalNodes = [] then s
  else
    if swapPnodes s = [] then s
    else
      let p := swapPick s k
      match s.nodes p with
      | none => s
      | some pd =>
        match pd.left, pd.right with
        | some l0, some r0 =>
          match s.nodes l0, s.nodes r0 with
          | some ld, some rd =>
            if ld.rule = rd.rule then
              let m1 := s.nodes.set p { pd with rule := ld.rule }
              let m2 := m1.set l0 { ld with rule := pd.rule }
              let m3 := m2.set r0 { rd with rule := pd.rule }
              { s with nodes := m3 }
            else
              let cands := swapCands s l0 r0
              if cands = [] then s
              else
                let c := cands.getD (k2 % cands.length) 0
                match s.nodes c with
                | none => s
                | some cd =>
                  let m1 := s.nodes.set c { cd with rule := pd.rule }
                  let m2 := m1.set p { pd with rule := cd.rule }
                  { s with nodes := m2 }
          | _, _ => s
        | _, _ => s

/-- The rule currently stored at a node id. -/
def ruleOf (s : TreeState) (i : Nat) : Option (Nat × ℚ) :=
  (s.nodes i).bind NodeData.rule

/-- The tree states reachable from a freshly constructed tree by any
sequence of `grow`, `split`, `prune`, `change` and `swap` calls, with
arbitrary random draws and arbitrary arguments. -/
inductive Reachable : TreeState → Prop
  | init (X : List (List ℚ)) (y : List ℚ) (nmin startId : Nat) :
      Reachable (initTree X y nmin startId)
  | grow {s : TreeState} (k fd ix : Nat) :
      Reachable s → Reachable (grow s k fd ix)
  | split {s : TreeState} (p f : Nat) (t : ℚ) :
      Reachable s → Reachable (split s p f t).1
  | prune {s : TreeState} (k : Nat) :
      Reachable s → Reachable (prune s k)
  | change {s : TreeState} (k fd ix : Nat) :
      Reachable s → Reachable (change s k fd ix)
  | swap {s : TreeState} (k k2 : Nat) :
      Reachable s → Reachable (swap s k k2)

/-- Allocator soundness: every live node id is below the process-wide
counter. -/
def WF1 (s : TreeState) : Prop :=
  ∀ i nd, s.nodes i = some nd → i < s.nextId

/-- Single-feature eight-row data on which three nested splits can
all commit with minimum leaf size 1. -/
def X8 : List (List ℚ) :=
  [[1], [2], [3], [4], [5], [6], [7], [8]]

/-- Outcomes for `X8`. -/
def y8 : List ℚ :=
  [0, 0, 0, 0, 0, 0, 0, 0]

/-- The node heap after a committed root split (root `r`, children
`r+1`, `r+2`, rule `(f1, t1)`), written out as explicit updates. -/
def treeMap1 (X : List (List ℚ)) (y : List ℚ) (nmin r f1 : Nat) (t1 : ℚ) :
    NodeMap :=
  (((initTree X y nmin r).nodes.set (r + 1) ⟨some r, true, 1, none, none, none⟩).set
    (r + 2) ⟨some r, false, 1, none, none, none⟩).set r
    ⟨none, true, 0, some (r + 1), some (r + 2), some (f1, t1)⟩

/-- The heap after additionally splitting the root's left child `r+1`
into `r+3`, `r+4` with rule `(f2, t2)`. -/
def treeMap2 (X : List (List ℚ)) (y : List ℚ) (nmin r f1 f2 : Nat) (t1 t2 : ℚ) :
    NodeMap :=
  (((treeMap1 X y nmin r f1 t1).set (r + 3)
      ⟨some (r + 1), true, 2, none, none, none⟩).set
    (r + 4) ⟨some (r + 1), false, 2, none, none, none⟩).set (r + 1)
    ⟨some r, true, 1, some (r + 3), some (r + 4), some (f2, t2)⟩

/-- The heap after additionally splitting node `r+4` into `r+5`,
`r+6` with rule `(f3, t3)`. -/
def treeMap3 (X : List (List ℚ)) (y : List ℚ) (nmin r f1 f2 f3 : Nat)
    (t1 t2 t3 : ℚ) : NodeMap :=
  (((treeMap2 X y nmin r f1 f2 t1 t2).set (r + 5)
      ⟨some (r + 4), true, 3, none, none, none⟩).set
    (r + 6) ⟨some (r + 4), false, 3, none, none, none⟩).set (r + 4)
    ⟨some (r + 1), false, 2, some (r + 5), some (r + 6), some (f3, t3)⟩

/-- `np.min` of a nonempty list (0 for the empty list, which numpy
rejects). -/
def listMinD : List ℚ → ℚ
  | [] => 0
  | x :: xs => xs.foldl min x

/-- `np.max` of a nonempty list (0 for the empty list, which numpy
rejects). -/
def listMaxD : List ℚ → ℚ
  | [] => 0
  | x :: xs => xs.foldl max x

/-- The outcome rescaling of `BartTrees.__init__`, exactly as coded:
`y += np.min(y)`, then `y /= np.max(y)` (the max of the shifted
vector), then `y -= 0.5`. -/
def rescaleY (y : List ℚ) : List ℚ :=
  let y1 := y.map fun v => v + listMinD y
  let y2 := y1.map fun v => v / listMaxD y1
  y2.map fun v => v - 1 / 2

/-- Modelled from the spec: the min-max rescaling the spec describes,
mapping the minimum to `-0.5` and the maximum to `0.5`. -/
def rescaleYSpec (y : List ℚ) : List ℚ :=
  let y1 := y.map fun v => v - listMinD y
  let y2 := y1.map fun v => v / listMaxD y1
  y2.map fun v => v - 1 / 2

/-- `scipy.special.gammaln` on the positive reals. -/
noncomputable def gammaln (x : ℝ) : ℝ :=
  Real.log (Real.Gamma x)

/-- The contribution of one terminal node to `CartTree.loglik`,
exactly as coded (Chipman Eq 14): zero when no rows are routed,
otherwise `t1 + t2 + t3 + t4 + t5` with `t2 = log((nu*lamb)**(0.5*nu))`
computed through the power. -/
noncomputable def nodeLoglik (s : TreeState) (nu lamb mubar a : ℝ) (i : Nat) : ℝ :=
  let n := nRouted s i
  if n = 0 then 0
  else
    let nn : ℝ := (n : ℝ)
    let ys := routedY s i
    let ymean : ℝ := (ys.map fun v => (v : ℝ)).sum / nn
    let yvar : ℝ := (ys.map fun v => ((v : ℝ) - ymean) ^ 2).sum / (nn - 1)
    let si := (nn - 1) * yvar
    let ti := nn * a / (nn + a) * (ymean - mubar) ^ 2
    let t1 := -(1 / 2) * nn * Real.log Real.pi
    let t2 := Real.log ((nu * lamb) ^ ((1 / 2) * nu))
    let t3 := (1 / 2) * Real.log (a / (nn + a))
    let t4 := gammaln ((1 / 2) * (nn + nu)) - gammaln ((1 / 2) * nu)
    let t5 := -(1 / 2) * (nn + nu) * Real.log (si + ti + nu * lamb)
    t1 + t2 + t3 + t4 + t5

/-- `CartTree.loglik`: the sum of the per-terminal-node contributions
over the cached terminal nodes. -/
noncomputable def loglik (s : TreeState) (nu lamb mubar a : ℝ) : ℝ :=
  (s.terminalNodes.map fun i => nodeLoglik s nu lamb mubar a i).sum

/-- The contribution of one terminal node to the log-likelihood as the
spec states it: for a node with `n` routed rows, sample mean and
sample variance (denominator `n - 1`), accumulate
`t1 = -0.5 n log pi`, `t2 = 0.5 nu log(nu lamb)`,
`t3 = 0.5 log(a/(n+a))`, `t4 = logGamma(0.5 (n+nu)) - logGamma(0.5 nu)`,
`t5 = -0.5 (n+nu) log((n-1) s2 + n a/(n+a) (ybar-mubar)^2 + nu lamb)`;
a node with zero routed rows contributes nothing. -/
noncomputable def nodeLoglikSpec (s : TreeState) (nu lamb mubar a : ℝ) (i : Nat) : ℝ :=
  let n := nRouted s i
  if n = 0 then 0
  else
    let nn : ℝ := (n : ℝ)
    let ys := routedY s i
    let ybar : ℝ := (ys.map fun v => (v : ℝ)).sum / nn
    let s2 : ℝ := (ys.map fun v => ((v : ℝ) - ybar) ^ 2).sum / (nn - 1)
    let t1 := -(1 / 2) * nn * Real.log Real.pi
    let t2 := (1 / 2) * nu * Real.log (nu * lamb)
    let t3 := (1 / 2) * Real.log (a / (nn + a))
    let t4 := gammaln ((1 / 2) * (nn + nu)) - gammaln ((1 / 2) * nu)
    let t5 := -(1 / 2) * (nn + nu) *
      Real.log ((nn - 1) * s2 + nn * a / (nn + a) * (ybar - mubar) ^ 2 + nu * lamb)
    t1 + t2 + t3 + t4 + t5

/-- The spec's log-likelihood: sum of the per-terminal-node
contributions. -/
noncomputable def loglikSpec (s : TreeState) (nu lamb mubar a : ℝ) : ℝ :=
  (s.terminalNodes.map fun i => nodeLoglikSpec s nu lamb mubar a i).sum

/-- The depth stored on a node (0 for a missing id, which cannot occur
for cached nodes in Python). -/
def depthOf (s : TreeState) (i : Nat) : Nat :=
  ((s.nodes i).map NodeData.depth).getD 0

/-- `np.sum(np.sum(fx, axis=0) > 1)`: the number of features whose
column mask at the node passes more than one row. -/
def nEligFeat (s : TreeState) (i : Nat) : Nat :=
  (List.range s.nFeatures).countP fun g => 1 < colCount s i g

/-- The spec's eligible-feature count: features with more than one
distinct value among the rows routed to the node. -/
def nDistinctFeat (s : TreeState) (i : Nat) : Nat :=
  (List.range s.nFeatures).countP fun g => 1 < (routedVals s i g).dedup.length

/-- `CartTree.logprior`, exactly as coded: every cached terminal node
adds `log(1 - alpha/(1+depth)**beta)`; every cached internal node adds
`log(alpha) - beta*log(1+depth) - log(nfeatures) - log(npts)` with
`nfeatures` counted from the column masks. -/
noncomputable def logprior (alpha beta : ℝ) (s : TreeState) : ℝ :=
  (s.terminalNodes.map fun i =>
    Real.log (1 - alpha / (1 + (depthOf s i : ℝ)) ^ beta)).sum +
  (s.internalNodes.map fun i =>
    Real.log alpha - beta * Real.log (1 + (depthOf s i : ℝ)) -
      Real.log ((nEligFeat s i : ℝ)) - Real.log ((nRouted s i : ℝ))).sum

/-- The log-prior as the spec states it: terminal nodes add
`log(1 - alpha (1+depth)^(-beta))`; internal nodes add
`log alpha - beta log(1+depth) - log(#eligible features) -
log(#eligible rows)`, a feature being eligible exactly when it has
more than one distinct value among the rows routed to the node. -/
noncomputable def logpriorSpecDistinct (alpha beta : ℝ) (s : TreeState) : ℝ :=
  (s.terminalNodes.map fun i =>
    Real.log (1 - alpha * (1 + (depthOf s i : ℝ)) ^ (-beta))).sum +
  (s.internalNodes.map fun i =>
    Real.log alpha - beta * Real.log (1 + (depthOf s i : ℝ)) -
      Real.log ((nDistinctFeat s i : ℝ)) - Real.log ((nRouted s i : ℝ))).sum

/-- The spec's log-prior formula with the eligible-feature count the
code actually uses: more than one row passing the feature's column
mask at the node. -/
noncomputable def logpriorSpecColumn (alpha beta : ℝ) (s : TreeState) : ℝ :=
  (s.terminalNodes.map fun i =>
    Real.log (1 - alpha * (1 + (depthOf s i : ℝ)) ^ (-beta))).sum +
  (s.internalNodes.map fun i =>
    Real.log alpha - beta * Real.log (1 + (depthOf s i : ℝ)) -
      Real.log ((nEligFeat s i : ℝ)) - Real.log ((nRouted s i : ℝ))).sum

/-- The single-feature data set of the concrete split/prune scenarios. -/
def X4 : List (List ℚ) :=
  [[1], [2], [3], [4]]

/-- Outcomes for the concrete scenarios. -/
def y4 : List ℚ :=
  [0, 0, 0, 0]

/-- A committed root split on `X4`: the root (id 0) splits on feature
0 at threshold 2, each child receiving two rows. -/
def s4a : TreeState :=
  (split (initTree X4 y4 2 0) 0 0 2).1

/-- The tree after pruning the root's two children: the root is
childless again but still carries its old rule `(0, 2)`, exactly as
`BaseTree.prune` leaves it. -/
def s4b : TreeState :=
  prune s4a 0

/-- Every live node has either no children or exactly two. -/
def ChildInv (m : NodeMap) : Prop :=
  ∀ i nd, m i = some nd → (nd.left = none ↔ nd.right = none)

/-- Two features chosen so that the root's two children can commit
splits carrying an identical rule `(1, 10)`. -/
def XSwap : List (List ℚ) :=
  [[1, 10], [2, 20], [3, 10], [4, 20]]

/-- A depth-two tree over `XSwap`: root (id 0) split on `(0, 2)`, both
children (ids 1 and 2) split on the identical rule `(1, 10)`. -/
def sSwap : TreeState :=
  (split ((split ((split (initTree XSwap y4 1 0) 0 0 2).1) 1 1 10).1) 2 1 10).1

/-- The two-feature data of the `prule` counterexample. -/
def XPr : List (List ℚ) :=
  [[0, 10], [5, 20]]

/-- Root split on `(0, 0)` over `XPr`: only row 0 is routed to the
left child (id 1). -/
def sPr : TreeState :=
  (split (initTree XPr [0, 0] 1 0) 0 0 0).1

/-- A concrete tree on which the code's eligible-feature count (2)
differs from the spec's distinct-value count (1): the second feature
is constant, so every row passes its column mask while it has a single
distinct value.  The tree is a root split on feature 0 at threshold 2
over `X = [[1,7],[2,7],[3,7],[4,7]]`. -/
def sPrior : TreeState :=
  { X := [[1, 7], [2, 7], [3, 7], [4, 7]]
    y := [0, 0, 0, 0]
    nFeatures := 2
    nSamples := 4
    nmin := 2
    nodes := fun j =>
      if j = 0 then some ⟨none, true, 0, some 1, some 2, some (0, 2)⟩
      else if j = 1 then some ⟨some 0, true, 1, none, none, none⟩
      else if j = 2 then some ⟨some 0, false, 1, none, none, none⟩
      else none
    nextId := 3
    head := 0
    terminalNodes := [2, 1]
    internalNodes := [0] }

theorem NodeMap.get_set (m : NodeMap) (i : Nat) (d : NodeData) (j : Nat) :
    (m.set i d) j = if j = i then some d else m j := rfl

theorem NodeMap.get_del (m : NodeMap) (i j : Nat) :
    (m.del i) j = if j = i then none else m j := rfl

theorem nodeData_eta (pd : NodeData) (h1 : pd.rule = none) (h2 : pd.left = none)
    (h3 : pd.right = none) :
    ({ pd with left := none, right := none, rule := none } : NodeData) = pd := by
  cases pd
  simp_all

theorem wf1_initTree (X : List (List ℚ)) (y : List ℚ) (nmin k : Nat) :
    WF1 (initTree X y nmin k) := by
  intro i nd h
  unfold initTree at h
  dsimp only at h
  by_cases hik : i = k
  · subst hik
    exact Nat.lt_succ_self i
  · rw [if_neg hik] at h
    exact absurd h (by simp)

theorem wf1_fresh {s : TreeState} (hwf : WF1 s) :
    ∀ j, s.nextId ≤ j → s.nodes j = none := by
  intro j hj
  cases h : s.nodes j with
  | none => rfl
  | some nd => exact absurd (hwf j nd h) (by omega)

theorem splitAttach_nodes (s : TreeState) (p : Nat) (pd : NodeData) (f : Nat) (t : ℚ) :
    (splitAttach s p pd f t).nodes =
      ((s.nodes.set s.nextId ⟨some p, true, pd.depth + 1, none, none, none⟩).set
        (s.nextId + 1) ⟨some p, false, pd.depth + 1, none, none, none⟩).set p
        { pd with left := some s.nextId, right := some (s.nextId + 1),
                  rule := some (f, t) } := rfl

theorem split_commit_eq {s : TreeState} {p f : Nat} {t : ℚ} {pd : NodeData}
    (hp : s.nodes p = some pd)
    (hc : s.nmin ≤ nRouted (splitAttach s p pd f t) s.nextId ∧
          s.nmin ≤ nRouted (splitAttach s p pd f t) (s.nextId + 1)) :
    split s p f t =
      ({ splitAttach s p pd f t with
          terminalNodes := termList (splitAttach s p pd f t).nodes
            (s.nextId + 2) s.head
          internalNodes := intList (splitAttach s p pd f t).nodes
            (s.nextId + 2) s.head },
       some (s.nextId, s.nextId + 1)) := by
  unfold split
  rw [hp]
  dsimp only
  rw [if_pos hc]
  rfl

theorem split_rollback_eq {s : TreeState} {p f : Nat} {t : ℚ} {pd : NodeData}
    (hp : s.nodes p = some pd)
    (hc : ¬(s.nmin ≤ nRouted (splitAttach s p pd f t) s.nextId ∧
            s.nmin ≤ nRouted (splitAttach s p pd f t) (s.nextId + 1))) :
    split s p f t =
      ({ splitAttach s p pd f t with
          nodes := (((splitAttach s p pd f t).nodes.set p
            { pd with left := none, right := none, rule := none }).del
              s.nextId).del (s.nextId + 1) },
       none) := by
  unfold split
  rw [hp]
  dsimp only
  rw [if_neg hc]

/-!
## C2: `split` commits iff both children are large enough, and what
its rollback restores
-/

/-- C2 (amended): `split(parent, feature, threshold)` commits — both
children attached, the rule set on the parent, both caches refreshed —
exactly when each child would receive at least `min_samples_leaf`
routed rows; otherwise it returns no children and rolls back,
detaching both children and clearing the parent's rule, so that for a
parent that was childless with no rule set (the normal case) the node
heap, the caches and the root are exactly as before the call.  (A
stale rule left on a childless parent by an earlier `prune` is
cleared, not restored, so the claim's unconditional byte-for-byte
restoration fails; see the counterexample.) -/
theorem split_commit_or_rollback (s : TreeState) (p f : Nat) (t : ℚ)
    (pd : NodeData) (hp : s.nodes p = some pd) (hrule : pd.rule = none)
    (hl : pd.left = none) (hr : pd.right = none) (hwf : WF1 s) :
    ((split s p f t).2 ≠ none ↔
      (s.nmin ≤ nRouted (splitAttach s p pd f t) s.nextId ∧
       s.nmin ≤ nRouted (splitAttach s p pd f t) (s.nextId + 1))) ∧
    ((split s p f t).2 = none →
      (split s p f t).1.nodes = s.nodes ∧
      (split s p f t).1.terminalNodes = s.terminalNodes ∧
      (split s p f t).1.internalNodes = s.internalNodes ∧
      (split s p f t).1.head = s.head) ∧
    ((split s p f t).2 ≠ none →
      (split s p f t).1.nodes p =
        some { pd with left := some s.nextId, right := some (s.nextId + 1),
                       rule := some (f, t) } ∧
      (split s p f t).1.nodes s.nextId =
        some ⟨some p, true, pd.depth + 1, none, none, none⟩ ∧
      (split s p f t).1.nodes (s.nextId + 1) =
        some ⟨some p, false, pd.depth + 1, none, none, none⟩ ∧
      (split s p f t).1.terminalNodes =
        termList (split s p f t).1.nodes (s.nextId + 2) s.head ∧
      (split s p f t).1.internalNodes =
        intList (split s p f t).1.nodes (s.nextId + 2) s.head) := by
  have hplt : p < s.nextId := hwf p pd hp
  by_cases hc : s.nmin ≤ nRouted (splitAttach s p pd f t) s.nextId ∧
      s.nmin ≤ nRouted (splitAttach s p pd f t) (s.nextId + 1)
  · rw [split_commit_eq hp hc]
    refine ⟨by simpa using hc, by simp, fun _ => ?_⟩
    refine ⟨?_, ?_, ?_, rfl, rfl⟩
    · rw [splitAttach_nodes, NodeMap.get_set, if_pos rfl]
    · rw [splitAttach_nodes, NodeMap.get_set,
        if_neg (show ¬s.nextId = p by omega), NodeMap.get_set,
        if_neg (by omega), NodeMap.get_set, if_pos rfl]
    · rw [splitAttach_nodes, NodeMap.get_set,
        if_neg (show ¬s.nextId + 1 = p by omega), NodeMap.get_set, if_pos rfl]
  · rw [split_rollback_eq hp hc]
    refine ⟨by simpa using hc, fun _ => ⟨?_, rfl, rfl, rfl⟩, by simp⟩
    funext j
    rw [splitAttach_nodes]
    simp only [NodeMap.get_del, NodeMap.get_set]
    by_cases h1 : j = s.nextId + 1
    · rw [if_pos h1, h1, wf1_fresh hwf _ (by omega)]
    · rw [if_neg h1]
      by_cases h2 : j = s.nextId
      · rw [if_pos h2, h2, wf1_fresh hwf _ (by omega)]
      · rw [if_neg h2]
        by_cases h3 : j = p
        · rw [if_pos h3, h3, hp, nodeData_eta pd hrule hl hr]
        · rw [if_neg h3, if_neg h3, if_neg h2, if_neg h1]

/-- C2 counterexample: calling `split` on the pruned root with a rule
that violates the minimum leaf size returns no children, yet the
root's rule is cleared rather than restored: before the call it is
`(0, 2)`, afterwards it is unset, so the tree is not byte-for-byte as
before the call. -/
theorem split_rollback_not_exact :
    (split s4b 0 0 1).2 = none ∧
    ruleOf s4b 0 = some (0, 2) ∧
    ruleOf (split s4b 0 0 1).1 0 = none := by
  refine ⟨by decide, by decide, by decide⟩

/-- Witness for C2 on a fresh single-node tree over `X4`. -/
theorem split_commit_or_rollback_witness :
    (initTree X4 y4 2 0).nodes 0 = some ⟨none, true, 0, none, none, none⟩ ∧
    (((split (initTree X4 y4 2 0) 0 0 2).2 ≠ none ↔
      (2 ≤ nRouted (splitAttach (initTree X4 y4 2 0) 0
          ⟨none, true, 0, none, none, none⟩ 0 2) 1 ∧
       2 ≤ nRouted (splitAttach (initTree X4 y4 2 0) 0
          ⟨none, true, 0, none, none, none⟩ 0 2) 2)) ∧
     ((split (initTree X4 y4 2 0) 0 0 2).2 = none →
       (split (initTree X4 y4 2 0) 0 0 2).1.nodes = (initTree X4 y4 2 0).nodes ∧
       (split (initTree X4 y4 2 0) 0 0 2).1.terminalNodes =
         (initTree X4 y4 2 0).terminalNodes ∧
       (split (initTree X4 y4 2 0) 0 0 2).1.internalNodes =
         (initTree X4 y4 2 0).internalNodes ∧
       (split (initTree X4 y4 2 0) 0 0 2).1.head = (initTree X4 y4 2 0).head) ∧
     ((split (initTree X4 y4 2 0) 0 0 2).2 ≠ none →
       (split (initTree X4 y4 2 0) 0 0 2).1.nodes 0 =
         some { parent := none, isLeft := true, depth := 0, left := some 1,
                right := some 2, rule := some (0, 2) } ∧
       (split (initTree X4 y4 2 0) 0 0 2).1.nodes 1 =
         some ⟨some 0, true, 1, none, none, none⟩ ∧
       (split (initTree X4 y4 2 0) 0 0 2).1.nodes 2 =
         some ⟨some 0, false, 1, none, none, none⟩ ∧
       (split (initTree X4 y4 2 0) 0 0 2).1.terminalNodes =
         termList (split (initTree X4 y4 2 0) 0 0 2).1.nodes 3
           (initTree X4 y4 2 0).head ∧
       (split (initTree X4 y4 2 0) 0 0 2).1.internalNodes =
         intList (split (initTree X4 y4 2 0) 0 0 2).1.nodes 3
           (initTree X4 y4 2 0).head)) :=
  ⟨rfl, split_commit_or_rollback (initTree X4 y4 2 0) 0 0 2
    ⟨none, true, 0, none, none, none⟩ rfl rfl rfl rfl (wf1_initTree X4 y4 2 0)⟩

/-!
## C3: the reachable-state invariant on children and rules
-/

theorem childInv_set {m : NodeMap} {i : Nat} {d : NodeData} (h : ChildInv m)
    (hd : d.left = none ↔ d.right = none) : ChildInv (m.set i d) := by
  intro j nd hj
  rw [NodeMap.get_set] at hj
  by_cases hji : j = i
  · rw [if_pos hji] at hj
    cases hj
    exact hd
  · rw [if_neg hji] at hj
    exact h j nd hj

theorem childInv_del {m : NodeMap} {i : Nat} (h : ChildInv m) :
    ChildInv (m.del i) := by
  intro j nd hj
  rw [NodeMap.get_del] at hj
  by_cases hji : j = i
  · rw [if_pos hji] at hj
    exact absurd hj (by simp)
  · rw [if_neg hji] at hj
    exact h j nd hj

theorem childInv_splitAttach {s : TreeState} {p : Nat} {pd : NodeData} {f : Nat}
    {t : ℚ} (h : ChildInv s.nodes) : ChildInv (splitAttach s p pd f t).nodes := by
  rw [splitAttach_nodes]
  exact childInv_set (childInv_set (childInv_set h (by simp)) (by simp)) (by simp)

theorem childInv_split {s : TreeState} {p f : Nat} {t : ℚ} (h : ChildInv s.nodes) :
    ChildInv (split s p f t).1.nodes := by
  cases hp : s.nodes p with
  | none =>
    unfold split
    rw [hp]
    exact h
  | some pd =>
    by_cases hc : s.nmin ≤ nRouted (splitAttach s p pd f t) s.nextId ∧
        s.nmin ≤ nRouted (splitAttach s p pd f t) (s.nextId + 1)
    · rw [split_commit_eq hp hc]
      exact childInv_splitAttach h
    · rw [split_rollback_eq hp hc]
      exact childInv_del (childInv_del
        (childInv_set (childInv_splitAttach h) (by simp)))

theorem childInv_grow {s : TreeState} {k fd ix : Nat} (h : ChildInv s.nodes) :
    ChildInv (grow s k fd ix).nodes := by
  unfold grow
  by_cases ht : s.terminalNodes = []
  · rw [if_pos ht]
    exact h
  · rw [if_neg ht]
    dsimp only
    cases hpr : prule s (s.terminalNodes.getD (k % s.terminalNodes.length) 0) fd ix with
    | none => exact h
    | some ft =>
      obtain ⟨f, t⟩ := ft
      exact childInv_split h

theorem childInv_prune {s : TreeState} {k : Nat} (h : ChildInv s.nodes) :
    ChildInv (prune s k).nodes := by
  unfold prune
  by_cases h1 : s.terminalNodes = []
  · rw [if_pos h1]
    exact h
  · rw [if_neg h1]
    dsimp only
    by_cases h2 : pruneCands s = []
    · rw [if_pos h2]
      exact h
    · rw [if_neg h2]
      cases hp : s.nodes ((pruneCands s).getD (k % (pruneCands s).length) 0) with
      | none => exact h
      | some pd =>
        dsimp only
        refine childInv_set ?_ (by simp)
        cases pd.left with
        | none =>
          cases pd.right with
          | none => exact h
          | some r0 => exact childInv_del h
        | some l0 =>
          cases pd.right with
          | none => exact childInv_del h
          | some r0 => exact childInv_del (childInv_del h)

theorem childInv_change {s : TreeState} {k fd ix : Nat} (h : ChildInv s.nodes) :
    ChildInv (change s k fd ix).nodes := by
  unfold change
  by_cases h1 : s.internalNodes = []
  · rw [if_pos h1]
    exact h
  · rw [if_neg h1]
    dsimp only
    cases hp : s.nodes (s.internalNodes.getD (k % s.internalNodes.length) 0) with
    | none => exact h
    | some nd =>
      dsimp only
      cases hpr : prule s (s.internalNodes.getD (k % s.internalNodes.length) 0) fd ix with
      | none => exact h
      | some ft =>
        obtain ⟨f, t⟩ := ft
        dsimp only
        have hnd := h _ nd hp
        split_ifs with hrev
        · exact childInv_set h hnd
        · exact childInv_set h hnd

theorem childInv_swap {s : TreeState} {k k2 : Nat} (h : ChildInv s.nodes) :
    ChildInv (swap s k k2).nodes := by
  unfold swap
  by_cases h1 : s.internalNodes = []
  · rw [if_pos h1]
    exact h
  · rw [if_neg h1]
    dsimp only
    by_cases h2 : swapPnodes s = []
    · rw [if_pos h2]
      exact h
    · rw [if_neg h2]
      cases hp : s.nodes (swapPick s k) with
      | none => exact h
      | some pd =>
        obtain ⟨pA, pB, pC, pL, pR, pRl⟩ := pd
        cases pL with
        | none => exact h
        | some l0 =>
          cases pR with
          | none => exact h
          | some r0 =>
            dsimp only
            cases hld : s.nodes l0 with
            | none => exact h
            | some ld =>
              cases hrd : s.nodes r0 with
              | none => exact h
              | some rd =>
                have hldi := h _ ld hld
                have hrdi := h _ rd hrd
                dsimp only
                by_cases heq : ld.rule = rd.rule
                · rw [if_pos heq]
                  exact childInv_set (childInv_set (childInv_set h (by simp)) hldi) hrdi
                · rw [if_neg heq]
                  generalize swapCands s l0 r0 = cs
                  by_cases hcs : cs = []
                  · rw [if_pos hcs]
                    exact h
                  · rw [if_neg hcs]
                    cases hcd : s.nodes (cs.getD (k2 % cs.length) 0) with
                    | none => exact h
                    | some cd =>
                      exact childInv_set (childInv_set h (h _ cd hcd)) (by simp)

/-- C3 (amended): in every tree state reachable from a fresh tree by
any sequence of `grow`, `split`, `prune`, `change` and `swap` calls,
every node has either no children or exactly two children (a node is
terminal exactly when it has no children).  The claim's stronger
rule-based characterization — terminal iff the rule is unset — is
false, because a pruned node keeps its old rule while childless; see
the counterexample. -/
theorem reachable_two_children (s : TreeState) (hs : Reachable s) :
    ∀ i nd, s.nodes i = some nd → (nd.left = none ↔ nd.right = none) := by
  induction hs with
  | init X y nmin startId =>
    intro i nd h
    unfold initTree at h
    dsimp only at h
    by_cases hik : i = startId
    · rw [if_pos hik] at h
      cases h
      simp
    · rw [if_neg hik] at h
      exact absurd h (by simp)
  | grow k fd ix _ ih => exact childInv_grow ih
  | split p f t _ ih => exact childInv_split ih
  | prune k _ ih => exact childInv_prune ih
  | change k fd ix _ ih => exact childInv_change ih
  | swap k k2 _ ih => exact childInv_swap ih

/-- C3 counterexample: the reachable state `s4b` — obtained from a
fresh tree over `X4` by a committed root split and then a prune — has
a root with no children whose rule is still `(0, 2)`, refuting
"terminal iff rule unset" and "a node carrying a rule has exactly two
children". -/
theorem terminal_rule_characterization_ce :
    Reachable s4b ∧
    (s4b.nodes 0).map NodeData.rule = some (some ((0 : Nat), (2 : ℚ))) ∧
    (s4b.nodes 0).map NodeData.left = some none ∧
    (s4b.nodes 0).map NodeData.right = some none := by
  refine ⟨?_, by decide, by decide, by decide⟩
  exact Reachable.prune 0 (Reachable.split 0 0 2 (Reachable.init X4 y4 2 0))

/-- Witness for C3 at a concrete fresh tree. -/
theorem reachable_two_children_witness :
    Reachable (initTree [[1]] [1] 5 0) ∧
    ∀ i nd, (initTree [[1]] [1] 5 0).nodes i = some nd →
      (nd.left = none ↔ nd.right = none) :=
  ⟨Reachable.init [[1]] [1] 5 0,
    reachable_two_children _ (Reachable.init [[1]] [1] 5 0)⟩

/-!
## C4: what `swap` does to the rules of the three affected nodes
-/

theorem swap_threeway_eq {s : TreeState} {k k2 l0 r0 : Nat} {pd ld rd : NodeData}
    (hne : ¬s.internalNodes = []) (hps : ¬swapPnodes s = [])
    (hp : s.nodes (swapPick s k) = some pd)
    (hl : pd.left = some l0) (hr : pd.right = some r0)
    (hld : s.nodes l0 = some ld) (hrd : s.nodes r0 = some rd)
    (heq : ld.rule = rd.rule) :
    swap s k k2 = { s with nodes :=
      ((s.nodes.set (swapPick s k) { pd with rule := ld.rule }).set l0
        { ld with rule := pd.rule }).set r0 { rd with rule := pd.rule } } := by
  unfold swap
  rw [if_neg hne, if_neg hps]
  dsimp only
  rw [hp]
  dsimp only
  rw [hl, hr]
  dsimp only
  rw [hld, hrd]
  dsimp only
  rw [if_pos heq]

theorem swap_twoway_skip {s : TreeState} {k k2 l0 r0 : Nat} {pd ld rd : NodeData}
    (hne : ¬s.internalNodes = []) (hps : ¬swapPnodes s = [])
    (hp : s.nodes (swapPick s k) = some pd)
    (hl : pd.left = some l0) (hr : pd.right = some r0)
    (hld : s.nodes l0 = some ld) (hrd : s.nodes r0 = some rd)
    (heq : ¬ld.rule = rd.rule) (hcs : swapCands s l0 r0 = []) :
    swap s k k2 = s := by
  unfold swap
  rw [if_neg hne, if_neg hps]
  dsimp only
  rw [hp]
  dsimp only
  rw [hl, hr]
  dsimp only
  rw [hld, hrd]
  dsimp only
  rw [if_neg heq]
  rw [if_pos hcs]

theorem swap_twoway_nonode {s : TreeState} {k k2 l0 r0 : Nat} {pd ld rd : NodeData}
    (hne : ¬s.internalNodes = []) (hps : ¬swapPnodes s = [])
    (hp : s.nodes (swapPick s k) = some pd)
    (hl : pd.left = some l0) (hr : pd.right = some r0)
    (hld : s.nodes l0 = some ld) (hrd : s.nodes r0 = some rd)
    (heq : ¬ld.rule = rd.rule) (hcs : ¬swapCands s l0 r0 = [])
    (hcd : s.nodes ((swapCands s l0 r0).getD
      (k2 % (swapCands s l0 r0).length) 0) = none) :
    swap s k k2 = s := by
  unfold swap
  rw [if_neg hne, if_neg hps]
  dsimp only
  rw [hp]
  dsimp only
  rw [hl, hr]
  dsimp only
  rw [hld, hrd]
  dsimp only
  rw [if_neg heq]
  rw [if_neg hcs]
  rw [hcd]

theorem swap_twoway_eq {s : TreeState} {k k2 l0 r0 : Nat} {pd ld rd cd : NodeData}
    (hne : ¬s.internalNodes = []) (hps : ¬swapPnodes s = [])
    (hp : s.nodes (swapPick s k) = some pd)
    (hl : pd.left = some l0) (hr : pd.right = some r0)
    (hld : s.nodes l0 = some ld) (hrd : s.nodes r0 = some rd)
    (heq : ¬ld.rule = rd.rule) (hcs : ¬swapCands s l0 r0 = [])
    (hcd : s.nodes ((swapCands s l0 r0).getD
      (k2 % (swapCands s l0 r0).length) 0) = some cd) :
    swap s k k2 = { s with nodes :=
      ((s.nodes.set ((swapCands s l0 r0).getD (k2 % (swapCands s l0 r0).length) 0)
        { cd with rule := pd.rule }).set (swapPick s k)
        { pd with rule := cd.rule }) } := by
  unfold swap
  rw [if_neg hne, if_neg hps]
  dsimp only
  rw [hp]
  dsimp only
  rw [hl, hr]
  dsimp only
  rw [hld, hrd]
  dsimp only
  rw [if_neg heq]
  rw [if_neg hcs]
  rw [hcd]

/-- C4 (amended): every `swap` call preserves the SET of
(feature, threshold) rules among the three affected nodes — the chosen
parent and its two children.  The two-way rule exchange also preserves
the multiset; the three-way rotation performed when the children carry
an identical rule maps the multiset `{p, c, c}` to `{c, p, p}`, which
is a permutation only when the two rules coincide (see the
counterexample for the claim as stated). -/
theorem swap_preserves_rule_set (s : TreeState) (k k2 l0 r0 : Nat)
    (pd ld rd : NodeData)
    (hne : ¬s.internalNodes = []) (hps : ¬swapPnodes s = [])
    (hp : s.nodes (swapPick s k) = some pd)
    (hl : pd.left = some l0) (hr : pd.right = some r0)
    (hld : s.nodes l0 = some ld) (hrd : s.nodes r0 = some rd)
    (hd1 : ¬swapPick s k = l0) (hd2 : ¬swapPick s k = r0) (hd3 : ¬l0 = r0) :
    (∀ x, x ∈ [ruleOf (swap s k k2) (swapPick s k), ruleOf (swap s k k2) l0,
        ruleOf (swap s k k2) r0] ↔ x ∈ [pd.rule, ld.rule, rd.rule]) ∧
    (¬ld.rule = rd.rule →
      List.Perm
        [ruleOf (swap s k k2) (swapPick s k), ruleOf (swap s k k2) l0,
          ruleOf (swap s k k2) r0]
        [pd.rule, ld.rule, rd.rule]) := by
  by_cases heq : ld.rule = rd.rule
  · rw [swap_threeway_eq hne hps hp hl hr hld hrd heq]
    have e1 : ruleOf { s with nodes :=
        ((s.nodes.set (swapPick s k) { pd with rule := ld.rule }).set l0
          { ld with rule := pd.rule }).set r0 { rd with rule := pd.rule } }
        (swapPick s k) = ld.rule := by
      simp only [ruleOf, NodeMap.get_set]
      rw [if_neg hd2, if_neg hd1]
      simp
    have e2 : ruleOf { s with nodes :=
        ((s.nodes.set (swapPick s k) { pd with rule := ld.rule }).set l0
          { ld with rule := pd.rule }).set r0 { rd with rule := pd.rule } }
        l0 = pd.rule := by
      simp only [ruleOf, NodeMap.get_set]
      rw [if_neg hd3]
      simp
    have e3 : ruleOf { s with nodes :=
        ((s.nodes.set (swapPick s k) { pd with rule := ld.rule }).set l0
          { ld with rule := pd.rule }).set r0 { rd with rule := pd.rule } }
        r0 = pd.rule := by
      simp [ruleOf, NodeMap.get_set]
    rw [e1, e2, e3]
    constructor
    · intro x
      rw [← heq]
      simp only [List.mem_cons, List.not_mem_nil, or_false]
      tauto
    · intro hcon
      exact absurd heq hcon
  · have eP : ruleOf s (swapPick s k) = pd.rule := by
      unfold ruleOf
      rw [hp]
      rfl
    have eL : ruleOf s l0 = ld.rule := by
      unfold ruleOf
      rw [hld]
      rfl
    have eR : ruleOf s r0 = rd.rule := by
      unfold ruleOf
      rw [hrd]
      rfl
    by_cases hcs : swapCands s l0 r0 = []
    · rw [swap_twoway_skip hne hps hp hl hr hld hrd heq hcs, eP, eL, eR]
      exact ⟨fun x => Iff.rfl, fun _ => List.Perm.refl _⟩
    · cases hcd : s.nodes ((swapCands s l0 r0).getD
          (k2 % (swapCands s l0 r0).length) 0) with
      | none =>
        rw [swap_twoway_nonode hne hps hp hl hr hld hrd heq hcs hcd, eP, eL, eR]
        exact ⟨fun x => Iff.rfl, fun _ => List.Perm.refl _⟩
      | some cd =>
        have hlen : 0 < (swapCands s l0 r0).length := List.length_pos.mpr hcs
        have hmem : (swapCands s l0 r0).getD (k2 % (swapCands s l0 r0).length) 0 ∈
            swapCands s l0 r0 := by
          rw [List.getD_eq_get _ _ (Nat.mod_lt _ hlen)]
          exact List.get_mem _ _ _
        have hCall : ∀ x, x ∈ swapCands s l0 r0 → x = l0 ∨ x = r0 := by
          intro x hx
          unfold swapCands at hx
          rcases List.mem_append.mp hx with hm | hm
          · left
            by_cases hin : l0 ∈ s.internalNodes
            · rw [if_pos hin] at hm
              simpa using hm
            · rw [if_neg hin] at hm
              simp at hm
          · right
            by_cases hin : r0 ∈ s.internalNodes
            · rw [if_pos hin] at hm
              simpa using hm
            · rw [if_neg hin] at hm
              simp at hm
        have hC := hCall _ hmem
        rw [swap_twoway_eq hne hps hp hl hr hld hrd heq hcs hcd]
        rcases hC with hC | hC
        · have hcdld : cd = ld := by
            rw [hC] at hcd
            exact Option.some.inj (hcd.symm.trans hld)
          have f1 : ruleOf { s with nodes :=
              ((s.nodes.set ((swapCands s l0 r0).getD
                (k2 % (swapCands s l0 r0).length) 0) { cd with rule := pd.rule }).set
                (swapPick s k) { pd with rule := cd.rule }) }
              (swapPick s k) = cd.rule := by
            simp [ruleOf, NodeMap.get_set]
          have f2 : ruleOf { s with nodes :=
              ((s.nodes.set ((swapCands s l0 r0).getD
                (k2 % (swapCands s l0 r0).length) 0) { cd with rule := pd.rule }).set
                (swapPick s k) { pd with rule := cd.rule }) }
              l0 = pd.rule := by
            simp only [ruleOf, NodeMap.get_set]
            rw [if_neg fun hh => hd1 hh.symm, if_pos hC.symm]
            rfl
          have f3 : ruleOf { s with nodes :=
              ((s.nodes.set ((swapCands s l0 r0).getD
                (k2 % (swapCands s l0 r0).length) 0) { cd with rule := pd.rule }).set
                (swapPick s k) { pd with rule := cd.rule }) }
              r0 = rd.rule := by
            simp only [ruleOf, NodeMap.get_set]
            rw [if_neg fun hh => hd2 hh.symm,
              if_neg fun hh => hd3 (hh.trans hC).symm, hrd]
            rfl
          rw [f1, f2, f3, hcdld]
          refine ⟨fun x => ?_, fun _ => List.Perm.swap pd.rule ld.rule [rd.rule]⟩
          simp only [List.mem_cons, List.not_mem_nil, or_false]
          tauto
        · have hcdrd : cd = rd := by
            rw [hC] at hcd
            exact Option.some.inj (hcd.symm.trans hrd)
          have f1 : ruleOf { s with nodes :=
              ((s.nodes.set ((swapCands s l0 r0).getD
                (k2 % (swapCands s l0 r0).length) 0) { cd with rule := pd.rule }).set
                (swapPick s k) { pd with rule := cd.rule }) }
              (swapPick s k) = cd.rule := by
            simp [ruleOf, NodeMap.get_set]
          have f2 : ruleOf { s with nodes :=
              ((s.nodes.set ((swapCands s l0 r0).getD
                (k2 % (swapCands s l0 r0).length) 0) { cd with rule := pd.rule }).set
                (swapPick s k) { pd with rule := cd.rule }) }
              l0 = ld.rule := by
            simp only [ruleOf, NodeMap.get_set]
            rw [if_neg fun hh => hd1 hh.symm,
              if_neg fun hh => hd3 (hh.trans hC), hld]
            rfl
          have f3 : ruleOf { s with nodes :=
              ((s.nodes.set ((swapCands s l0 r0).getD
                (k2 % (swapCands s l0 r0).length) 0) { cd with rule := pd.rule }).set
                (swapPick s k) { pd with rule := cd.rule }) }
              r0 = pd.rule := by
            simp only [ruleOf, NodeMap.get_set]
            rw [if_neg fun hh => hd2 hh.symm, if_pos hC.symm]
            rfl
          rw [f1, f2, f3, hcdrd]
          refine ⟨fun x => ?_, fun _ => ?_⟩
          · simp only [List.mem_cons, List.not_mem_nil, or_false]
            tauto
          · simpa using List.reverse_perm [pd.rule, ld.rule, rd.rule]

/-- C1: for every tree and positive `nu*lamb`, `CartTree.loglik`
equals the spec's sum over terminal nodes of `t1 + t2 + t3 + t4 + t5`,
terminal nodes with zero routed rows contributing nothing; the code's
`t2 = log((nu*lamb)**(0.5*nu))` coincides with the spec's
`0.5*nu*log(nu*lamb)`. -/
theorem loglik_eq_loglikSpec (s : TreeState) (nu lamb mubar a : ℝ)
    (h : 0 < nu * lamb) :
    loglik s nu lamb mubar a = loglikSpec s nu lamb mubar a := by
  unfold loglik loglikSpec
  refine congrArg List.sum (List.map_congr_left ?_)
  intro i _
  simp only [nodeLoglik, nodeLoglikSpec]
  by_cases hn : nRouted s i = 0
  · simp [hn]
  · simp only [hn, if_false]
    rw [Real.log_rpow h]

/-- Witness for C1 at a concrete tree and concrete positive
hyperparameters. -/
theorem loglik_eq_loglikSpec_witness :
    (0 : ℝ) < 1 * 1 ∧
      loglik (initTree [[1], [2]] [3, 4] 5 0) 1 1 0 1 =
        loglikSpec (initTree [[1], [2]] [3, 4] 5 0) 1 1 0 1 :=
  ⟨by norm_num, loglik_eq_loglikSpec _ 1 1 0 1 (by norm_num)⟩

/-- C4 counterexample: the three-way rotation of `swap` on `sSwap`
turns the rule multiset `{(0,2), (1,10), (1,10)}` of the parent and
its two children into `{(1,10), (0,2), (0,2)}`, which is not a
permutation of the former, refuting the claim as stated. -/
theorem swap_multiset_ce :
    ¬ List.Perm
      [ruleOf (swap sSwap 0 0) 0, ruleOf (swap sSwap 0 0) 1,
        ruleOf (swap sSwap 0 0) 2]
      [ruleOf sSwap 0, ruleOf sSwap 1, ruleOf sSwap 2] := by
  decide

/-- Witness for C4 on `sSwap`: the rule set among the three affected
nodes is preserved by the three-way rotation. -/
theorem swap_preserves_rule_set_witness :
    sSwap.nodes (swapPick sSwap 0) =
      some ⟨none, true, 0, some 1, some 2, some (0, 2)⟩ ∧
    ((∀ x, x ∈ [ruleOf (swap sSwap 0 0) (swapPick sSwap 0),
        ruleOf (swap sSwap 0 0) 1, ruleOf (swap sSwap 0 0) 2] ↔
        x ∈ [some ((0 : Nat), (2 : ℚ)), some (1, 10), some (1, 10)]) ∧
      (¬(some ((1 : Nat), (10 : ℚ))) = some ((1 : Nat), (10 : ℚ)) →
        List.Perm
          [ruleOf (swap sSwap 0 0) (swapPick sSwap 0),
            ruleOf (swap sSwap 0 0) 1, ruleOf (swap sSwap 0 0) 2]
          [some ((0 : Nat), (2 : ℚ)), some (1, 10), some (1, 10)])) :=
  ⟨by decide, swap_preserves_rule_set sSwap 0 0 1 2
    ⟨none, true, 0, some 1, some 2, some (0, 2)⟩
    ⟨some 0, true, 1, some 3, some 4, some (1, 10)⟩
    ⟨some 0, false, 1, some 5, some 6, some (1, 10)⟩
    (by decide) (by decide) (by decide) (by decide) (by decide)
    (by decide) (by decide) (by decide) (by decide) (by decide)⟩

/-!
## C6: where `proposeRule` draws its threshold from
-/

/-- C6 (amended): when `prule` returns a `(feature, threshold)` pair,
the feature is the drawn one and the threshold is one of the observed
values of that feature among the rows passing the feature's own column
mask at the node (ancestor constraints restricted to that feature);
`(none, none)` is returned exactly when that value set is empty.  The
threshold need NOT be an observed value among the rows routed to the
node (all ancestor constraints); see the counterexample. -/
theorem prule_threshold_from_column (s : TreeState) (i fd ix : Nat) :
    (prule s i fd ix = none ↔ colData s i (fd % s.nFeatures) = []) ∧
    (∀ ft : Nat × ℚ, prule s i fd ix = some ft →
      ft.1 = fd % s.nFeatures ∧ ft.2 ∈ colData s i ft.1) := by
  unfold prule
  by_cases hd : colData s i (fd % s.nFeatures) = []
  · rw [if_pos hd]
    refine ⟨by simp [hd], ?_⟩
    intro ft hft
    exact absurd hft (by simp)
  · rw [if_neg hd]
    refine ⟨by simp [hd], ?_⟩
    intro ft hft
    obtain rfl : ft = (fd % s.nFeatures,
        (colData s i (fd % s.nFeatures)).getD
          (ix % (colData s i (fd % s.nFeatures)).length) 0) :=
      (Option.some.inj hft).symm
    refine ⟨rfl, ?_⟩
    have hlen : 0 < (colData s i (fd % s.nFeatures)).length :=
      List.length_pos.mpr hd
    rw [List.getD_eq_get _ _ (Nat.mod_lt _ hlen)]
    exact List.get_mem _ _ _

/-- C6 counterexample: at the left child, drawing feature 1 can return
threshold 20, the feature-1 value of a row that is NOT routed to the
node (its only routed row has feature-1 value 10) — because the code
indexes with the per-feature column mask, not the routed-row mask. -/
theorem prule_not_from_routed_rows :
    prule sPr 1 1 1 = some (1, 20) ∧
    ¬(20 : ℚ) ∈ routedVals sPr 1 1 := by
  exact ⟨by decide, by decide⟩

/-- Witness for C6 on a fresh two-row tree: the returned threshold is
an observed value of the drawn feature among the column-mask rows. -/
theorem prule_threshold_witness :
    prule (initTree [[5], [7]] [0, 0] 1 0) 0 0 0 = some (0, 5) ∧
    (0 : Nat) = 0 % (initTree [[5], [7]] [0, 0] 1 0).nFeatures ∧
    (5 : ℚ) ∈ colData (initTree [[5], [7]] [0, 0] 1 0) 0 0 :=
  ⟨by decide, by decide,
    ((prule_threshold_from_column (initTree [[5], [7]] [0, 0] 1 0) 0 0 0).2
      (0, 5) (by decide)).2⟩

/-!
## C7: the ensemble's outcome rescaling
-/

/-- C7: the rescaling coded in `BartTrees.__init__` (`y += np.min(y)`
then `y /= np.max(y)` then `y -= 0.5`) is NOT a min-max rescaling to
`[-0.5, 0.5]`: on the outcome vector `[1, 2]` it produces
`[1/6, 1/2]`, so the minimum is mapped to `1/6`, not `-1/2`, while the
spec's rescaling (modelled from the spec, with the intended
`y -= np.min(y)` first step that the code's own comment
"minimum = 0" describes) does map it to `[-1/2, 1/2]`. -/
theorem rescaleY_not_minmax :
    rescaleY [1, 2] = [1 / 6, 1 / 2] ∧
    rescaleYSpec [1, 2] = [-(1 / 2), 1 / 2] ∧
    ¬(-(1 / 2) : ℚ) ∈ rescaleY [1, 2] := by
  refine ⟨?_, ?_, ?_⟩ <;>
    norm_num [rescaleY, rescaleYSpec, listMinD, listMaxD, min_def, max_def]

/-!
## C5: the log-prior and the eligible-feature count
-/

/-- C5 (amended): `CartTree.logprior` equals the spec's formula once a
feature is called eligible at a node exactly when more than one row
passes that feature's column mask there (the code's
`np.sum(np.sum(fx, axis=0) > 1)`), rather than when it has more than
one distinct value among the routed rows. -/
theorem logprior_eq_specColumn (alpha beta : ℝ) (s : TreeState) :
    logprior alpha beta s = logpriorSpecColumn alpha beta s := by
  unfold logprior logpriorSpecColumn
  refine congrArg₂ (· + ·) (congrArg List.sum (List.map_congr_left ?_)) rfl
  intro i _
  have hx : (0 : ℝ) ≤ 1 + (depthOf s i : ℝ) := by positivity
  rw [Real.rpow_neg hx]
  congr 1

/-- C5 counterexample: on `sPrior` with `alpha = 1/2`, `beta = 1`, the
code's `logprior` differs from the spec's distinct-value formula by
`log 2`, refuting the claim as stated. -/
theorem logprior_ne_specDistinct :
    logprior (1 / 2) 1 sPrior ≠ logpriorSpecDistinct (1 / 2) 1 sPrior := by
  have e1 : depthOf sPrior 1 = 1 := rfl
  have e2 : depthOf sPrior 2 = 1 := rfl
  have e3 : depthOf sPrior 0 = 0 := rfl
  have e4 : nEligFeat sPrior 0 = 2 := by decide
  have e5 : nDistinctFeat sPrior 0 = 1 := by decide
  have e6 : nRouted sPrior 0 = 4 := by decide
  have ht : sPrior.terminalNodes = [2, 1] := rfl
  have hi : sPrior.internalNodes = [0] := rfl
  intro h
  unfold logprior logpriorSpecDistinct at h
  rw [ht, hi] at h
  simp only [List.map_cons, List.map_nil, List.sum_cons, List.sum_nil,
    e1, e2, e3, e4, e5, e6] at h
  norm_num [Real.rpow_one, Real.rpow_neg] at h

/-!
## C8: `change` reverts exactly and never touches the caches
-/

/-- C8: `change` never alters the terminal or internal node lists
(whether the new rule is kept or reverted), and when the proposed rule
would leave either child of the selected internal node with fewer than
`min_samples_leaf` routed rows, the node's original
(feature, threshold) pair is restored exactly, leaving the whole node
heap as before the call. -/
theorem change_reverts_and_keeps_caches (s : TreeState) (k fd ix : Nat) :
    (change s k fd ix).terminalNodes = s.terminalNodes ∧
    (change s k fd ix).internalNodes = s.internalNodes ∧
    ∀ nd : NodeData, ∀ f : Nat, ∀ t : ℚ,
      s.nodes (s.internalNodes.getD (k % s.internalNodes.length) 0) = some nd →
      prule s (s.internalNodes.getD (k % s.internalNodes.length) 0) fd ix =
        some (f, t) →
      (childCount { s with nodes := (s.nodes.set
          (s.internalNodes.getD (k % s.internalNodes.length) 0)
          { nd with rule := some (f, t) }) } nd.left < s.nmin ∨
       childCount { s with nodes := (s.nodes.set
          (s.internalNodes.getD (k % s.internalNodes.length) 0)
          { nd with rule := some (f, t) }) } nd.right < s.nmin) →
      (change s k fd ix).nodes = s.nodes := by
  unfold change
  by_cases h1 : s.internalNodes = []
  · rw [if_pos h1]
    exact ⟨rfl, rfl, fun _ _ _ _ _ _ => rfl⟩
  · rw [if_neg h1]
    dsimp only
    cases hnd : s.nodes (s.internalNodes.getD (k % s.internalNodes.length) 0) with
    | none =>
      refine ⟨rfl, rfl, ?_⟩
      intro nd f t hnd' _ _
      exact absurd hnd' (by simp)
    | some nd0 =>
      cases hpr : prule s (s.internalNodes.getD (k % s.internalNodes.length) 0)
          fd ix with
      | none =>
        refine ⟨rfl, rfl, ?_⟩
        intro nd f t _ hpr' _
        exact absurd hpr' (by simp)
      | some ft =>
        obtain ⟨f0, t0⟩ := ft
        dsimp only
        split_ifs with hrev
        · refine ⟨rfl, rfl, ?_⟩
          intro nd f t hnd' _ _
          obtain rfl : nd0 = nd := Option.some.inj hnd'
          funext j
          dsimp only
          rw [NodeMap.get_set]
          by_cases hj : j = s.internalNodes.getD (k % s.internalNodes.length) 0
          · rw [if_pos hj, hj, hnd]
          · rw [if_neg hj]
        · refine ⟨rfl, rfl, ?_⟩
          intro nd f t hnd' hpr' hbel
          obtain rfl : nd0 = nd := Option.some.inj hnd'
          obtain ⟨rfl, rfl⟩ : f0 = f ∧ t0 = t := by
            have hpair := Option.some.inj hpr'
            exact ⟨congrArg Prod.fst hpair, congrArg Prod.snd hpair⟩
          exact absurd hbel hrev

/-- Witness for C8 on the one-split tree `s4a` over `X4`: `change`
with draws selecting the root and proposing threshold 1 (leaving the
left child a single row, below `min_samples_leaf = 2`) restores the
rule `(0, 2)` exactly and leaves the caches and heap unchanged. -/
theorem change_reverts_witness :
    (change s4a 0 0 0).terminalNodes = s4a.terminalNodes ∧
    (change s4a 0 0 0).internalNodes = s4a.internalNodes ∧
    (change s4a 0 0 0).nodes = s4a.nodes :=
  ⟨(change_reverts_and_keeps_caches s4a 0 0 0).1,
   (change_reverts_and_keeps_caches s4a 0 0 0).2.1,
   (change_reverts_and_keeps_caches s4a 0 0 0).2.2
     ⟨none, true, 0, some 1, some 2, some (0, 2)⟩ 0 1 (by decide) (by decide)
     (by decide)⟩

/-!
## C10: the id allocator across splits, including rejected ones
-/

/-- C10: node ids come from the single counter `nextId` (`Node.NodeId`
in Python) — under allocator soundness (`WF1`) the two ids a split
hands out, `nextId` and `nextId + 1`, are fresh, and soundness is
preserved, so ids are unique and strictly increasing across all
allocations.  Every `split` call on a live node advances the counter
by exactly 2, committed or not; a rejected split leaves every other
node untouched and neither fresh id allocated, so the counter is not
rolled back and id gaps appear without any prune. -/
theorem split_advances_counter (s : TreeState) (p f : Nat) (t : ℚ)
    (pd : NodeData) (hp : s.nodes p = some pd) (hwf : WF1 s) :
    (split s p f t).1.nextId = s.nextId + 2 ∧
    s.nodes s.nextId = none ∧
    s.nodes (s.nextId + 1) = none ∧
    ((split s p f t).2 = none →
      (∀ j, ¬j = p → (split s p f t).1.nodes j = s.nodes j) ∧
      (split s p f t).1.nodes s.nextId = none ∧
      (split s p f t).1.nodes (s.nextId + 1) = none) ∧
    WF1 (split s p f t).1 := by
  have hplt : p < s.nextId := hwf p pd hp
  by_cases hc : s.nmin ≤ nRouted (splitAttach s p pd f t) s.nextId ∧
      s.nmin ≤ nRouted (splitAttach s p pd f t) (s.nextId + 1)
  · rw [split_commit_eq hp hc]
    refine ⟨rfl, wf1_fresh hwf _ (by omega), wf1_fresh hwf _ (by omega),
      fun hno => absurd hno (by simp), ?_⟩
    intro i nd hi
    dsimp only at hi
    show i < s.nextId + 2
    rw [splitAttach_nodes] at hi
    rw [NodeMap.get_set] at hi
    by_cases hip : i = p
    · omega
    · rw [if_neg hip, NodeMap.get_set] at hi
      by_cases hir : i = s.nextId + 1
      · omega
      · rw [if_neg hir, NodeMap.get_set] at hi
        by_cases hil : i = s.nextId
        · omega
        · rw [if_neg hil] at hi
          have := hwf i nd hi
          omega
  · rw [split_rollback_eq hp hc]
    refine ⟨rfl, wf1_fresh hwf _ (by omega), wf1_fresh hwf _ (by omega),
      fun _ => ⟨?_, ?_, ?_⟩, ?_⟩
    · intro j hjp
      rw [splitAttach_nodes]
      simp only [NodeMap.get_del, NodeMap.get_set]
      by_cases h1 : j = s.nextId + 1
      · rw [if_pos h1, h1, wf1_fresh hwf _ (by omega)]
      · rw [if_neg h1]
        by_cases h2 : j = s.nextId
        · rw [if_pos h2, h2, wf1_fresh hwf _ (by omega)]
        · rw [if_neg h2, if_neg hjp, if_neg hjp, if_neg h1, if_neg h2]
    · rw [splitAttach_nodes]
      simp [NodeMap.get_del, NodeMap.get_set]
    · rw [splitAttach_nodes]
      simp [NodeMap.get_del, NodeMap.get_set]
    · intro i nd hi
      dsimp only at hi
      show i < s.nextId + 2
      rw [splitAttach_nodes] at hi
      simp only [NodeMap.get_del, NodeMap.get_set] at hi
      by_cases h1 : i = s.nextId + 1
      · rw [if_pos h1] at hi
        exact absurd hi (by simp)
      · rw [if_neg h1] at hi
        by_cases h2 : i = s.nextId
        · rw [if_pos h2] at hi
          exact absurd hi (by simp)
        · rw [if_neg h2] at hi
          by_cases h3 : i = p
          · omega
          · rw [if_neg h3, if_neg h3, if_neg h1, if_neg h2] at hi
            have := hwf i nd hi
            omega

/-- Witness for C10: a rejected split (minimum leaf size 5 over the
four-row `X4`) still advances the counter from 1 to 3 and allocates
neither id 1 nor id 2. -/
theorem split_advances_counter_witness :
    (initTree X4 y4 5 0).nodes 0 = some ⟨none, true, 0, none, none, none⟩ ∧
    ((split (initTree X4 y4 5 0) 0 0 2).1.nextId =
      (initTree X4 y4 5 0).nextId + 2 ∧
    (initTree X4 y4 5 0).nodes 1 = none ∧
    (initTree X4 y4 5 0).nodes 2 = none ∧
    ((split (initTree X4 y4 5 0) 0 0 2).2 = none →
      (∀ j, ¬j = 0 →
        (split (initTree X4 y4 5 0) 0 0 2).1.nodes j =
          (initTree X4 y4 5 0).nodes j) ∧
      (split (initTree X4 y4 5 0) 0 0 2).1.nodes 1 = none ∧
      (split (initTree X4 y4 5 0) 0 0 2).1.nodes 2 = none) ∧
    WF1 (split (initTree X4 y4 5 0) 0 0 2).1) :=
  ⟨rfl, split_advances_counter (initTree X4 y4 5 0) 0 0 2
    ⟨none, true, 0, none, none, none⟩ rfl (wf1_initTree X4 y4 5 0)⟩

/-!
## C9: cache recomputation order after three committed splits
-/

theorem termList_some (m : NodeMap) (fuel i : Nat) (nd : NodeData)
    (h : m i = some nd) :
    termList m (fuel + 1) i =
      (if nd.right = none ∨ nd.left = none then [i] else []) ++
      (match nd.right with
       | some r0 => termList m fuel r0
       | none => []) ++
      (match nd.left with
       | some l0 => termList m fuel l0
       | none => []) := by
  simp only [termList, h]

theorem intList_some (m : NodeMap) (fuel i : Nat) (nd : NodeData)
    (h : m i = some nd) :
    intList m (fuel + 1) i =
      (if nd.right ≠ none ∧ nd.left ≠ none then [i] else []) ++
      (match nd.right with
       | some r0 => intList m fuel r0
       | none => []) ++
      (match nd.left with
       | some l0 => intList m fuel l0
       | none => []) := by
  simp only [intList, h]

/-- C9: cache recomputation recurses into the right subtree before the
left, appending a node to the terminal list when a child slot is empty
and to the internal list when both are filled; consequently, after
splitting the root `r`, then the root's left child (`r+1`), then that
child's right child (`r+4`), all three splits committing, the terminal
cache is `[r+2, r+6, r+5, r+3]` and the internal cache is
`[r, r+1, r+4]` — offsets `[2, 6, 5, 3]` and `[0, 1, 4]` from the root
id, in list order. -/
theorem calcNodes_after_three_splits (X : List (List ℚ)) (y : List ℚ)
    (nmin r f1 f2 f3 : Nat) (t1 t2 t3 : ℚ)
    (h1 : (split (initTree X y nmin r) r f1 t1).2 ≠ none)
    (h2 : (split (split (initTree X y nmin r) r f1 t1).1 (r + 1) f2 t2).2 ≠ none)
    (h3 : (split (split (split (initTree X y nmin r) r f1 t1).1 (r + 1) f2 t2).1
      (r + 4) f3 t3).2 ≠ none) :
    ((split (split (split (initTree X y nmin r) r f1 t1).1 (r + 1) f2 t2).1
        (r + 4) f3 t3).1.nodes r).map NodeData.left = some (some (r + 1)) ∧
    ((split (split (split (initTree X y nmin r) r f1 t1).1 (r + 1) f2 t2).1
        (r + 4) f3 t3).1.nodes (r + 1)).map NodeData.right = some (some (r + 4)) ∧
    (split (split (split (initTree X y nmin r) r f1 t1).1 (r + 1) f2 t2).1
        (r + 4) f3 t3).1.terminalNodes = [r + 2, r + 6, r + 5, r + 3] ∧
    (split (split (split (initTree X y nmin r) r f1 t1).1 (r + 1) f2 t2).1
        (r + 4) f3 t3).1.internalNodes = [r, r + 1, r + 4] := by
  -- step 1: the root split commits
  have hp0 : (initTree X y nmin r).nodes r = some ⟨none, true, 0, none, none, none⟩ := by
    unfold initTree
    dsimp only
    rw [if_pos rfl]
  have hc1 : (initTree X y nmin r).nmin ≤
      nRouted (splitAttach (initTree X y nmin r) r
        ⟨none, true, 0, none, none, none⟩ f1 t1) (initTree X y nmin r).nextId ∧
      (initTree X y nmin r).nmin ≤
      nRouted (splitAttach (initTree X y nmin r) r
        ⟨none, true, 0, none, none, none⟩ f1 t1) ((initTree X y nmin r).nextId + 1) := by
    by_contra hcc
    rw [split_rollback_eq hp0 hcc] at h1
    exact h1 rfl
  have e1 : (split (initTree X y nmin r) r f1 t1).1.nodes =
      treeMap1 X y nmin r f1 t1 := by
    rw [split_commit_eq hp0 hc1]
    rfl
  have en1 : (split (initTree X y nmin r) r f1 t1).1.nextId = r + 3 := by
    rw [split_commit_eq hp0 hc1]
    rfl
  have eh1 : (split (initTree X y nmin r) r f1 t1).1.head = r := by
    rw [split_commit_eq hp0 hc1]
    rfl
  have em1 : (split (initTree X y nmin r) r f1 t1).1.nmin = nmin := by
    rw [split_commit_eq hp0 hc1]
    rfl
  -- step 2: the split of the root's left child commits
  have hp1 : (split (initTree X y nmin r) r f1 t1).1.nodes (r + 1) =
      some ⟨some r, true, 1, none, none, none⟩ := by
    rw [e1]
    unfold treeMap1
    simp [NodeMap.get_set]
  have hc2 : (split (initTree X y nmin r) r f1 t1).1.nmin ≤
      nRouted (splitAttach (split (initTree X y nmin r) r f1 t1).1 (r + 1)
        ⟨some r, true, 1, none, none, none⟩ f2 t2)
        (split (initTree X y nmin r) r f1 t1).1.nextId ∧
      (split (initTree X y nmin r) r f1 t1).1.nmin ≤
      nRouted (splitAttach (split (initTree X y nmin r) r f1 t1).1 (r + 1)
        ⟨some r, true, 1, none, none, none⟩ f2 t2)
        ((split (initTree X y nmin r) r f1 t1).1.nextId + 1) := by
    by_contra hcc
    rw [split_rollback_eq hp1 hcc] at h2
    exact h2 rfl
  have e2 : (split (split (initTree X y nmin r) r f1 t1).1 (r + 1) f2 t2).1.nodes =
      treeMap2 X y nmin r f1 f2 t1 t2 := by
    rw [split_commit_eq hp1 hc2]
    dsimp only
    rw [splitAttach_nodes, e1, en1]
    rfl
  have en2 : (split (split (initTree X y nmin r) r f1 t1).1 (r + 1) f2 t2).1.nextId =
      r + 5 := by
    rw [split_commit_eq hp1 hc2]
    dsimp only [splitAttach]
    rw [en1]
  have eh2 : (split (split (initTree X y nmin r) r f1 t1).1 (r + 1) f2 t2).1.head =
      r := by
    rw [split_commit_eq hp1 hc2]
    dsimp only [splitAttach]
    rw [eh1]
  -- step 3: the split of that child's right child commits
  have hp2 : (split (split (initTree X y nmin r) r f1 t1).1 (r + 1) f2 t2).1.nodes
      (r + 4) = some ⟨some (r + 1), false, 2, none, none, none⟩ := by
    rw [e2]
    unfold treeMap2
    simp [NodeMap.get_set]
  have hc3 : (split (split (initTree X y nmin r) r f1 t1).1 (r + 1) f2 t2).1.nmin ≤
      nRouted (splitAttach
        (split (split (initTree X y nmin r) r f1 t1).1 (r + 1) f2 t2).1 (r + 4)
        ⟨some (r + 1), false, 2, none, none, none⟩ f3 t3)
        (split (split (initTree X y nmin r) r f1 t1).1 (r + 1) f2 t2).1.nextId ∧
      (split (split (initTree X y nmin r) r f1 t1).1 (r + 1) f2 t2).1.nmin ≤
      nRouted (splitAttach
        (split (split (initTree X y nmin r) r f1 t1).1 (r + 1) f2 t2).1 (r + 4)
        ⟨some (r + 1), false, 2, none, none, none⟩ f3 t3)
        ((split (split (initTree X y nmin r) r f1 t1).1 (r + 1) f2 t2).1.nextId + 1) := by
    by_contra hcc
    rw [split_rollback_eq hp2 hcc] at h3
    exact h3 rfl
  have eAtt3 : (splitAttach
      (split (split (initTree X y nmin r) r f1 t1).1 (r + 1) f2 t2).1 (r + 4)
      ⟨some (r + 1), false, 2, none, none, none⟩ f3 t3).nodes =
      treeMap3 X y nmin r f1 f2 f3 t1 t2 t3 := by
    rw [splitAttach_nodes, e2, en2]
    rfl
  -- node lookups in the final heap
  have n0 : treeMap3 X y nmin r f1 f2 f3 t1 t2 t3 r =
      some ⟨none, true, 0, some (r + 1), some (r + 2), some (f1, t1)⟩ := by
    unfold treeMap3 treeMap2 treeMap1
    simp [NodeMap.get_set]
  have n1 : treeMap3 X y nmin r f1 f2 f3 t1 t2 t3 (r + 1) =
      some ⟨some r, true, 1, some (r + 3), some (r + 4), some (f2, t2)⟩ := by
    unfold treeMap3 treeMap2
    simp [NodeMap.get_set]
  have n2 : treeMap3 X y nmin r f1 f2 f3 t1 t2 t3 (r + 2) =
      some ⟨some r, false, 1, none, none, none⟩ := by
    unfold treeMap3 treeMap2 treeMap1
    simp [NodeMap.get_set]
  have n3 : treeMap3 X y nmin r f1 f2 f3 t1 t2 t3 (r + 3) =
      some ⟨some (r + 1), true, 2, none, none, none⟩ := by
    unfold treeMap3 treeMap2
    simp [NodeMap.get_set]
  have n4 : treeMap3 X y nmin r f1 f2 f3 t1 t2 t3 (r + 4) =
      some ⟨some (r + 1), false, 2, some (r + 5), some (r + 6), some (f3, t3)⟩ := by
    unfold treeMap3
    simp [NodeMap.get_set]
  have n5 : treeMap3 X y nmin r f1 f2 f3 t1 t2 t3 (r + 5) =
      some ⟨some (r + 4), true, 3, none, none, none⟩ := by
    unfold treeMap3
    simp [NodeMap.get_set]
  have n6 : treeMap3 X y nmin r f1 f2 f3 t1 t2 t3 (r + 6) =
      some ⟨some (r + 4), false, 3, none, none, none⟩ := by
    unfold treeMap3
    simp [NodeMap.get_set]
  -- terminal-list evaluation, right subtree before left
  have tr2 : termList (treeMap3 X y nmin r f1 f2 f3 t1 t2 t3) (r + 6) (r + 2) =
      [r + 2] := by
    rw [termList_some _ (r + 5) _ _ n2]
    simp
  have tr3 : termList (treeMap3 X y nmin r f1 f2 f3 t1 t2 t3) (r + 5) (r + 3) =
      [r + 3] := by
    rw [termList_some _ (r + 4) _ _ n3]
    simp
  have tr5 : termList (treeMap3 X y nmin r f1 f2 f3 t1 t2 t3) (r + 4) (r + 5) =
      [r + 5] := by
    rw [termList_some _ (r + 3) _ _ n5]
    simp
  have tr6 : termList (treeMap3 X y nmin r f1 f2 f3 t1 t2 t3) (r + 4) (r + 6) =
      [r + 6] := by
    rw [termList_some _ (r + 3) _ _ n6]
    simp
  have tr4 : termList (treeMap3 X y nmin r f1 f2 f3 t1 t2 t3) (r + 5) (r + 4) =
      [r + 6, r + 5] := by
    rw [termList_some _ (r + 4) _ _ n4]
    simp [tr5, tr6]
  have tr1 : termList (treeMap3 X y nmin r f1 f2 f3 t1 t2 t3) (r + 6) (r + 1) =
      [r + 6, r + 5, r + 3] := by
    rw [termList_some _ (r + 5) _ _ n1]
    simp [tr4, tr3]
  have trR : termList (treeMap3 X y nmin r f1 f2 f3 t1 t2 t3) (r + 5 + 2) r =
      [r + 2, r + 6, r + 5, r + 3] := by
    rw [termList_some _ (r + 6) _ _ n0]
    simp [tr2, tr1]
  -- internal-list evaluation
  have ir2 : intList (treeMap3 X y nmin r f1 f2 f3 t1 t2 t3) (r + 6) (r + 2) =
      [] := by
    rw [intList_some _ (r + 5) _ _ n2]
    simp
  have ir3 : intList (treeMap3 X y nmin r f1 f2 f3 t1 t2 t3) (r + 5) (r + 3) =
      [] := by
    rw [intList_some _ (r + 4) _ _ n3]
    simp
  have ir5 : intList (treeMap3 X y nmin r f1 f2 f3 t1 t2 t3) (r + 4) (r + 5) =
      [] := by
    rw [intList_some _ (r + 3) _ _ n5]
    simp
  have ir6 : intList (treeMap3 X y nmin r f1 f2 f3 t1 t2 t3) (r + 4) (r + 6) =
      [] := by
    rw [intList_some _ (r + 3) _ _ n6]
    simp
  have ir4 : intList (treeMap3 X y nmin r f1 f2 f3 t1 t2 t3) (r + 5) (r + 4) =
      [r + 4] := by
    rw [intList_some _ (r + 4) _ _ n4]
    simp [ir5, ir6]
  have ir1 : intList (treeMap3 X y nmin r f1 f2 f3 t1 t2 t3) (r + 6) (r + 1) =
      [r + 1, r + 4] := by
    rw [intList_some _ (r + 5) _ _ n1]
    simp [ir4, ir3]
  have irR : intList (treeMap3 X y nmin r f1 f2 f3 t1 t2 t3) (r + 5 + 2) r =
      [r, r + 1, r + 4] := by
    rw [intList_some _ (r + 6) _ _ n0]
    simp [ir2, ir1]
  refine ⟨?_, ?_, ?_, ?_⟩
  · rw [split_commit_eq hp2 hc3]
    dsimp only
    rw [eAtt3, n0]
    rfl
  · rw [split_commit_eq hp2 hc3]
    dsimp only
    rw [eAtt3, n1]
    rfl
  · rw [split_commit_eq hp2 hc3]
    dsimp only
    rw [eAtt3, en2, eh2]
    exact trR
  · rw [split_commit_eq hp2 hc3]
    dsimp only
    rw [eAtt3, en2, eh2]
    exact irR

/-- Witness for C9: over the single-feature eight-row data `X8` with
minimum leaf size 1, the three splits (root at threshold 4, its left
child at 2, that child's right child at 3) all commit, and the caches
come out in the claimed right-before-left order. -/
theorem calcNodes_after_three_splits_witness :
    (split (initTree X8 y8 1 0) 0 0 4).2 ≠ none ∧
    (split (split (initTree X8 y8 1 0) 0 0 4).1 1 0 2).2 ≠ none ∧
    (split (split (split (initTree X8 y8 1 0) 0 0 4).1 1 0 2).1 4 0 3).2 ≠ none ∧
    ((split (split (split (initTree X8 y8 1 0) 0 0 4).1 1 0 2).1 4 0
        3).1.terminalNodes = [2, 6, 5, 3] ∧
      (split (split (split (initTree X8 y8 1 0) 0 0 4).1 1 0 2).1 4 0
        3).1.internalNodes = [0, 1, 4]) :=
  ⟨by decide, by decide, by decide,
    (calcNodes_after_three_splits X8 y8 1 0 0 0 0 4 2 3 (by decide) (by decide)
      (by decide)).2.2⟩

end CART
